import Mathlib

/-!
Verification of the component-fraction solvers of `phasorpy.components`
(`two_fractions_from_phasor`, `fractions_from_phasor`) against their
natural-language specification.

The embedding models numpy arrays as a flat row-major data list together
with a shape, Python-level dynamic values (`PyObj`) to capture attribute
errors, and the error monad `Except PyErr` for raised exceptions.  Real
floating-point numbers are idealised as `ℝ` (the specification states all
numeric properties up to floating tolerance; in exact arithmetic they are
exact).  The `axis` parameter of `fractions_from_phasor` is fixed at its
default value `0`, the only value exercised by the specification.
-/

namespace Phasor

/-- Python exceptions raised by the solvers: `ValueError` (shape mismatch,
degenerate components), `numpy.linalg.LinAlgError` (singular or non-square
systems) and `AttributeError` (attribute access on an object lacking it). -/
inductive PyErr where
  | valueError (msg : String)
  | linAlgError (msg : String)
  | attributeError (msg : String)
deriving DecidableEq

/-- A numpy `ndarray`: a shape and the flat row-major data. -/
structure NDArray where
  shape : List ℕ
  data : List ℝ

/-- Well-formedness of an `ndarray`: the flat data has exactly
`shape.prod` entries. -/
def NDArray.wf (a : NDArray) : Prop := a.data.length = a.shape.prod

/-- `ndarray.size`: the number of elements, the product of the shape. -/
def NDArray.size (a : NDArray) : ℕ := a.shape.prod

/-- `ndarray.ndim`: the number of axes. -/
def NDArray.ndim (a : NDArray) : ℕ := a.shape.length

/-- A Python value passed to the solvers: a plain float, a plain list, or a
numpy array.  Floats and lists have no `shape` attribute. -/
inductive PyObj where
  | scalar (x : ℝ)
  | list (xs : List ℝ)
  | ndarray (a : NDArray)

/-- Attribute access `obj.shape`: only ndarrays carry a `shape`; a plain
float or list raises `AttributeError`. -/
def PyObj.shapeAttr : PyObj → Except PyErr (List ℕ)
  | .ndarray a => .ok a.shape
  | .scalar _ => .error (.attributeError "object has no attribute shape")
  | .list _ => .error (.attributeError "object has no attribute shape")

/-- Whether the object carries a `shape` attribute. -/
def PyObj.hasShapeAttr : PyObj → Bool
  | .ndarray _ => true
  | _ => false

/-- `numpy.asarray`: a float becomes a 0-d array, a list a 1-d array, an
array is returned unchanged. -/
def PyObj.asarray : PyObj → NDArray
  | .scalar x => ⟨[], [x]⟩
  | .list xs => ⟨[xs.length], xs⟩
  | .ndarray a => a

/-- `numpy.atleast_1d`: promote a 0-d array to shape `(1,)`. -/
def atleast_1d (o : PyObj) : NDArray :=
  if o.asarray.shape = [] then ⟨[1], o.asarray.data⟩ else o.asarray

/-- `numpy.ones(shape)`. -/
def np_ones (shape : List ℕ) : NDArray := ⟨shape, List.replicate shape.prod 1⟩

/-- `numpy.concatenate(l, axis=0)` for arrays whose shapes agree past the
first axis: sum the first axis, append the row-major data. -/
def np_concat0 : List NDArray → NDArray
  | [] => ⟨[0], []⟩
  | a :: rest =>
      ⟨((a :: rest).map fun x => x.shape.getD 0 0).sum :: a.shape.drop 1,
       ((a :: rest).map fun x => x.data).foldr (· ++ ·) []⟩

/-- `numpy.expand_dims(a, axis=0)`. -/
def np_expand_dims0 (a : NDArray) : NDArray := ⟨1 :: a.shape, a.data⟩

/-- `a[..., None]`: append a trailing axis of length one. -/
def np_expand_last (a : NDArray) : NDArray := ⟨a.shape ++ [1], a.data⟩

/-- Row-major rank of a multi-index in a shape. -/
def flatIndex (shape idx : List ℕ) : ℕ :=
  (shape.zip idx).foldl (fun acc p => acc * p.1 + p.2) 0

/-- Unrank helper: digits of `j` with respect to the reversed shape. -/
def multiIndexAux : List ℕ → ℕ → List ℕ
  | [], _ => []
  | s :: rest, j => j % s :: multiIndexAux rest (j / s)

/-- Row-major multi-index of flat position `j` in a shape. -/
def multiIndex (shape : List ℕ) (j : ℕ) : List ℕ :=
  (multiIndexAux shape.reverse j).reverse

/-- `a.T`: reverse all axes. -/
def np_transpose (a : NDArray) : NDArray :=
  ⟨a.shape.reverse,
   (List.range a.shape.prod).map fun j =>
     a.data.getD (flatIndex a.shape (multiIndex a.shape.reverse j).reverse) 0⟩

/-- `numpy.tile(a, (k,))`: repeat blocks of the trailing axis `k` times.
With trailing axis length `d`, position `idx` of the result reads position
`(idx / (d*k)) * d + (idx % (d*k)) % d` of the input. -/
def np_tile_last (a : NDArray) (k : ℕ) : NDArray :=
  let d := a.shape.getLastD 1
  ⟨a.shape.dropLast ++ [d * k],
   (List.range (a.shape.dropLast.prod * (d * k))).map fun idx =>
     a.data.getD ((idx / (d * k)) * d + (idx % (d * k)) % d) 0⟩

/-- `a[..., 0]`: index the trailing axis at `0`. -/
def np_index_last0 (a : NDArray) : NDArray :=
  match a.shape.reverse with
  | [] => a
  | m :: rest => ⟨rest.reverse, (List.range rest.prod).map fun i => a.data.getD (i * m) 0⟩

/-- `tuple(a)`: iterate over the first axis, yielding the sub-arrays. -/
def tupleOfArray (a : NDArray) : List NDArray :=
  match a.shape with
  | [] => []
  | k :: rest =>
      (List.range k).map fun j =>
        ⟨rest, (List.range rest.prod).map fun i => a.data.getD (j * rest.prod + i) 0⟩

/-- Entry `i` of the exact solution of the square system `A x = b`,
obtained by Cramer's rule (`x = det⁻¹ • cramer A b`), as computed by
`numpy.linalg.solve` on a nonsingular system. -/
noncomputable def solveEntry {k : ℕ} (A : Matrix (Fin k) (Fin k) ℝ)
    (b : Fin k → ℝ) (i : ℕ) : ℝ :=
  if h : i < k then (A.det⁻¹ • Matrix.cramer A b) ⟨i, h⟩ else 0

open scoped Classical in
/-- `numpy.linalg.solve(a, b)`.  `a` must be square (else
`LinAlgError: Last 2 dimensions of the array must be square`) and
nonsingular (else `LinAlgError: Singular matrix`); `b` is a stack of
matrices broadcast over its leading axes, each solved exactly.  The model
covers a 2-dimensional `a` and an at-least-2-dimensional `b`, the only
case the solvers produce. -/
noncomputable def np_linalg_solve (a b : NDArray) : Except PyErr NDArray :=
  match a.shape with
  | [r, c] =>
    if r ≠ c then .error (.linAlgError "Last 2 dimensions of the array must be square")
    else
      match b.shape.reverse with
      | m :: k2 :: _ =>
        if k2 ≠ r then .error (.valueError "solve: incompatible dimensions")
        else
          let A : Matrix (Fin r) (Fin r) ℝ := Matrix.of fun i j => a.data.getD (i.val * c + j.val) 0
          if A.det = 0 then .error (.linAlgError "Singular matrix")
          else .ok ⟨b.shape, (List.range b.shape.prod).map fun idx =>
            solveEntry A
              (fun i => b.data.getD ((idx / (r * m)) * (r * m) + i.val * m + idx % m) 0)
              ((idx % (r * m)) / m)⟩
      | _ => .error (.valueError "solve: b must have at least 2 dimensions")
  | _ => .error (.linAlgError "solve: a must be 2-dimensional in this model")

/-- `math.hypot x y = sqrt (x² + y²)`. -/
noncomputable def hypot (x y : ℝ) : ℝ := Real.sqrt (x ^ 2 + y ^ 2)

/-- `math.isclose(a, b, rel_tol, abs_tol)`:
`|a - b| ≤ max (rel_tol * max |a| |b|) abs_tol`. -/
def isclose (a b rel_tol abs_tol : ℝ) : Prop :=
  |a - b| ≤ max (rel_tol * max |a| |b|) abs_tol

/-- Modelled from the spec: `project_phasor_to_line` is imported from
`phasorpy._utils`, which is not among the source files.  Section 4.1 of the
specification describes it as the standard orthogonal projection of each
measured point onto the line through the two reference components:
translate so the first reference point is the origin, take the dot product
of the translated point with the unit direction vector of the line, scale
the direction vector by that scalar, translate back.  A point already on
the line projects to itself. -/
noncomputable def project_phasor_to_line
    (real imag real_components imag_components : PyObj) : NDArray × NDArray :=
  let x := real.asarray
  let y := imag.asarray
  let rc := real_components.asarray
  let ic := imag_components.asarray
  let a := rc.data.getD 0 0
  let b := ic.data.getD 0 0
  let dx := rc.data.getD 1 0 - a
  let dy := ic.data.getD 1 0 - b
  let d := hypot dx dy
  let ux := dx / d
  let uy := dy / d
  (⟨x.shape, List.zipWith (fun px py => a + ((px - a) * ux + (py - b) * uy) * ux) x.data y.data⟩,
   ⟨x.shape, List.zipWith (fun px py => b + ((px - a) * ux + (py - b) * uy) * uy) x.data y.data⟩)

open scoped Classical in
/-- `two_fractions_from_phasor(real, imag, real_components, imag_components)`:
the two-component line-projection solver of `phasorpy.components`. -/
noncomputable def two_fractions_from_phasor
    (real imag real_components imag_components : PyObj) : Except PyErr (List NDArray) :=
  let rc := real_components.asarray
  let ic := imag_components.asarray
  if rc.shape ≠ [2] then .error (.valueError "real_components.shape != (2,)")
  else if ic.shape ≠ [2] then .error (.valueError "imag_components.shape != (2,)")
  else
    let f1r := rc.data.getD 0 0
    let f1i := ic.data.getD 0 0
    let f2r := rc.data.getD 1 0
    let f2i := ic.data.getD 1 0
    let total_distance := hypot (f2r - f1r) (f2i - f1i)
    if isclose total_distance 0 1e-9 1e-6 then
      .error (.valueError "components must have different coordinates")
    else
      let p := project_phasor_to_line real imag (.ndarray rc) (.ndarray ic)
      let dists := List.zipWith (fun px py => hypot (px - f1r) (py - f1i)) p.1.data p.2.data
      let frac2 := dists.map (· / total_distance)
      .ok (tupleOfArray ⟨2 :: p.1.shape, frac2.map (fun v => 1 - v) ++ frac2⟩)

/-- `fractions_from_phasor(real, imag, real_components, imag_components, axis=0)`:
the dispatcher and linear-system solver of `phasorpy.components`, at the
default `axis = 0`. -/
noncomputable def fractions_from_phasor
    (real imag real_components imag_components : PyObj) : Except PyErr (List NDArray) :=
  match real.shapeAttr with
  | .error e => .error e
  | .ok rshape =>
  match imag.shapeAttr with
  | .error e => .error e
  | .ok ishape =>
  if rshape ≠ ishape then .error (.valueError "real.shape != imag.shape")
  else
  match real_components.shapeAttr with
  | .error e => .error e
  | .ok rcshape =>
  match imag_components.shapeAttr with
  | .error e => .error e
  | .ok icshape =>
  if rcshape ≠ icshape then
    .error (.valueError "real_components.shape != imag_components.shape")
  else
    let r := atleast_1d real
    let i := atleast_1d imag
    let rc0 := atleast_1d real_components
    let ic0 := atleast_1d imag_components
    if rc0.size = 2 then
      two_fractions_from_phasor (.ndarray r) (.ndarray i) (.ndarray rc0) (.ndarray ic0)
    else
      let rc := if rc0.ndim = 1 then np_expand_dims0 rc0 else rc0
      let ic := if rc0.ndim = 1 then np_expand_dims0 ic0 else ic0
      let cc := np_concat0 [rc, ic]
      let pair :=
        if cc.shape.getD 0 0 ≠ cc.shape.getD 1 0 then
          (np_concat0 [rc, ic, np_ones rc.shape],
           np_concat0 [np_expand_dims0 r, np_expand_dims0 i, np_ones (np_expand_dims0 r).shape])
        else (cc, np_concat0 [r, i])
      let tiled := np_tile_last (np_expand_last (np_transpose pair.2)) (pair.1.shape.getD 0 0)
      match np_linalg_solve pair.1 tiled with
      | .error e => .error e
      | .ok fr => .ok (tupleOfArray (np_transpose (np_index_last0 fr)))

end Phasor

namespace Phasor

/-! ## Generic extraction lemmas -/

lemma getD_range_map {m p : ℕ} (f : ℕ → ℝ) (h : p < m) :
    (((List.range m).map f).getD p 0) = f p := by
  rw [List.getD_eq_getElem _ _ (by simpa using h)]
  simp

lemma getD_replicate {n m : ℕ} {x : ℝ} (h : m < n) :
    (List.replicate n x).getD m 0 = x := by
  rw [List.getD_eq_getElem _ _ (by simpa using h)]
  exact List.getElem_replicate ..

lemma getD_append_left {l₁ l₂ : List ℝ} {n : ℕ} (h : n < l₁.length) :
    (l₁ ++ l₂).getD n 0 = l₁.getD n 0 := List.getD_append _ _ _ _ h

lemma getD_append_right' {l₁ l₂ : List ℝ} {n : ℕ} (h : l₁.length ≤ n) :
    (l₁ ++ l₂).getD n 0 = l₂.getD (n - l₁.length) 0 := List.getD_append_right _ _ _ _ h

lemma multiIndex_pair (s t p : ℕ) : multiIndex [s, t] p = [p / t % s, p % t] := by
  simp [multiIndex, multiIndexAux]

lemma multiIndex_single (s p : ℕ) : multiIndex [s] p = [p % s] := by
  simp [multiIndex, multiIndexAux]

lemma flatIndex_pair (s t a b : ℕ) : flatIndex [s, t] [a, b] = a * t + b := by
  simp [flatIndex]

lemma flatIndex_single (s a : ℕ) : flatIndex [s] [a] = a := by
  simp [flatIndex]

lemma div_helper {i n : ℕ} (j : ℕ) (h : i < n) : (j * n + i) / n = j := by
  have hn : 0 < n := lt_of_le_of_lt (Nat.zero_le i) h
  rw [mul_comm, Nat.mul_add_div hn, Nat.div_eq_of_lt h, add_zero]

lemma mod_helper {i n : ℕ} (j : ℕ) (h : i < n) : (j * n + i) % n = i := by
  rw [mul_comm, Nat.mul_add_mod, Nat.mod_eq_of_lt h]

lemma mul_add_lt {i j n k : ℕ} (hj : j < k) (hi : i < n) : j * n + i < k * n := by
  calc j * n + i < j * n + n := by omega
  _ = (j + 1) * n := by ring
  _ ≤ k * n := Nat.mul_le_mul_right n hj

/-! ## zipWith fusion -/

lemma zipWith_zipWith_same (f g h : ℝ → ℝ → ℝ) :
    ∀ (xs ys : List ℝ),
      List.zipWith f (List.zipWith g xs ys) (List.zipWith h xs ys) =
        List.zipWith (fun x y => f (g x y) (h x y)) xs ys
  | [], _ => by simp
  | _ :: _, [] => by simp
  | x :: xs, y :: ys => by
      simp [zipWith_zipWith_same f g h xs ys]

lemma map_zipWith_same (f : ℝ → ℝ) (g : ℝ → ℝ → ℝ) (xs ys : List ℝ) :
    (List.zipWith g xs ys).map f = List.zipWith (fun x y => f (g x y)) xs ys := by
  induction xs generalizing ys with
  | nil => simp
  | cons x xs ih => cases ys <;> simp [ih]

lemma zipWith_congr_fun {f g : ℝ → ℝ → ℝ} (h : ∀ x y, f x y = g x y)
    (xs ys : List ℝ) : List.zipWith f xs ys = List.zipWith g xs ys := by
  induction xs generalizing ys with
  | nil => simp
  | cons x xs ih => cases ys <;> simp [ih, h]

end Phasor

namespace Phasor

/-! ## Square-root and tolerance helpers -/

lemma hypot_nonneg (x y : ℝ) : 0 ≤ hypot x y := Real.sqrt_nonneg _

lemma hypot_sq (x y : ℝ) : hypot x y ^ 2 = x ^ 2 + y ^ 2 :=
  Real.sq_sqrt (by positivity)

lemma isclose_zero_iff {x : ℝ} (hx : 0 ≤ x) :
    isclose x 0 1e-9 1e-6 ↔ x ≤ 1e-6 := by
  unfold isclose
  rw [sub_zero, abs_of_nonneg hx]
  simp only [abs_zero, max_eq_left hx]
  constructor
  · intro h
    rcases le_max_iff.mp h with h1 | h1
    · linarith
    · exact h1
  · intro h
    exact le_max_of_le_right h

lemma hypot_le_tol_iff (x y : ℝ) :
    hypot x y ≤ 1e-6 ↔ x ^ 2 + y ^ 2 ≤ 1e-12 := by
  unfold hypot
  constructor
  · intro h
    nlinarith [Real.sq_sqrt (show (0:ℝ) ≤ x ^ 2 + y ^ 2 by positivity),
      Real.sqrt_nonneg (x ^ 2 + y ^ 2)]
  · intro h
    have h2 : Real.sqrt (x ^ 2 + y ^ 2) ≤ Real.sqrt 1e-12 := Real.sqrt_le_sqrt h
    rwa [show (1e-12 : ℝ) = (1e-6) ^ 2 by norm_num,
      Real.sqrt_sq (by norm_num)] at h2

end Phasor

namespace Phasor

/-- C3: for components of any size K ∈ {2,3,4}, `fractions_from_phasor`
raises the shape-mismatch `ValueError` as soon as `real.shape` differs
from `imag.shape`; the error is returned to the caller unrecovered. -/
theorem C3_shape_mismatch_raises (ra ia : NDArray) (rc ic : PyObj)
    (_hK : (PyObj.asarray rc).size = 2 ∨ (PyObj.asarray rc).size = 3 ∨
      (PyObj.asarray rc).size = 4)
    (h : ra.shape ≠ ia.shape) :
    fractions_from_phasor (.ndarray ra) (.ndarray ia) rc ic =
      .error (.valueError "real.shape != imag.shape") := by
  simp [fractions_from_phasor, PyObj.shapeAttr, h]

theorem C3_shape_mismatch_raises_witness :
    fractions_from_phasor (.ndarray ⟨[3], [0.6, 0.5, 0.4]⟩)
        (.ndarray ⟨[2], [0.4, 0.3]⟩)
        (.ndarray ⟨[2], [0.2, 0.9]⟩) (.ndarray ⟨[2], [0.4, 0.3]⟩) =
      .error (.valueError "real.shape != imag.shape") :=
  C3_shape_mismatch_raises _ _ _ _
    (Or.inl (by simp [PyObj.asarray, NDArray.size]))
    (by simp)

/-- C6: `two_fractions_from_phasor` fails with a shape-mismatch
`ValueError` whenever the real or imaginary component array does not have
shape `(2,)` exactly. -/
theorem C6_component_shape_check (real imag rc ic : PyObj)
    (h : rc.asarray.shape ≠ [2] ∨ ic.asarray.shape ≠ [2]) :
    two_fractions_from_phasor real imag rc ic =
        .error (.valueError "real_components.shape != (2,)") ∨
      two_fractions_from_phasor real imag rc ic =
        .error (.valueError "imag_components.shape != (2,)") := by
  by_cases h1 : rc.asarray.shape = [2]
  · right
    rcases h with h2 | h2
    · exact absurd h1 h2
    · simp [two_fractions_from_phasor, h1, h2]
  · left
    simp [two_fractions_from_phasor, h1]

theorem C6_component_shape_check_witness :
    two_fractions_from_phasor (.list [0.6]) (.list [0.4])
        (.list [0.2, 0.9, 0.5]) (.list [0.4, 0.3]) =
      .error (.valueError "real_components.shape != (2,)") ∨
    two_fractions_from_phasor (.list [0.6]) (.list [0.4])
        (.list [0.2, 0.9, 0.5]) (.list [0.4, 0.3]) =
      .error (.valueError "imag_components.shape != (2,)") :=
  C6_component_shape_check _ _ _ _ (Or.inl (by simp [PyObj.asarray]))

/-- C9: if `real` or `imag` has no `shape` attribute (a plain float or
list), `fractions_from_phasor` raises `AttributeError` from the up-front
shape comparison, before any conversion, instead of the documented
shape-mismatch `ValueError`. -/
theorem C9_attribute_error (real imag rc ic : PyObj)
    (h : real.hasShapeAttr = false ∨ imag.hasShapeAttr = false) :
    fractions_from_phasor real imag rc ic =
      .error (.attributeError "object has no attribute shape") := by
  cases real <;> cases imag <;>
    simp_all [fractions_from_phasor, PyObj.shapeAttr, PyObj.hasShapeAttr]

theorem C9_attribute_error_witness :
    fractions_from_phasor (.list [0.6, 0.5, 0.4]) (.list [0.4, 0.3, 0.2])
        (.list [0.2, 0.9]) (.list [0.4, 0.3]) =
      .error (.attributeError "object has no attribute shape") :=
  C9_attribute_error _ _ _ _ (Or.inl rfl)

/-- Shared helper: with four components supplied as 1-dimensional arrays,
the ones-row augmentation yields a 3-by-4 coefficient matrix and
`numpy.linalg.solve` rejects it as non-square, whatever the samples are. -/
theorem fractions4_1d_not_square (ra ia : NDArray) (cr ci : List ℝ)
    (h : ra.shape = ia.shape) :
    fractions_from_phasor (.ndarray ra) (.ndarray ia)
        (.ndarray ⟨[4], cr⟩) (.ndarray ⟨[4], ci⟩) =
      .error (.linAlgError "Last 2 dimensions of the array must be square") := by
  simp [fractions_from_phasor, PyObj.shapeAttr, h, atleast_1d, PyObj.asarray,
    NDArray.size, NDArray.ndim, np_expand_dims0, np_concat0, np_ones,
    np_linalg_solve]

/-- C10: four components at a single harmonic (1-dimensional component
arrays of length 4, axis 0) always make the exact solve raise on the
3-by-4 augmented system; no fraction tuple is ever returned. -/
theorem C10_single_harmonic_four_components (ra ia : NDArray) (cr ci : List ℝ)
    (h : ra.shape = ia.shape) :
    fractions_from_phasor (.ndarray ra) (.ndarray ia)
        (.ndarray ⟨[4], cr⟩) (.ndarray ⟨[4], ci⟩) =
      .error (.linAlgError "Last 2 dimensions of the array must be square") :=
  fractions4_1d_not_square ra ia cr ci h

theorem C10_single_harmonic_four_components_witness :
    fractions_from_phasor (.ndarray ⟨[1], [0.5]⟩) (.ndarray ⟨[1], [0.3]⟩)
        (.ndarray ⟨[4], [0.1, 0.2, 0.3, 0.4]⟩)
        (.ndarray ⟨[4], [0.4, 0.3, 0.2, 0.1]⟩) =
      .error (.linAlgError "Last 2 dimensions of the array must be square") :=
  C10_single_harmonic_four_components _ _ _ _ rfl

end Phasor

namespace Phasor

/-! ## Closed form of the two-component solver -/

lemma asarray_ndarray (A : NDArray) : (PyObj.ndarray A).asarray = A := rfl

lemma two_fraction_pointwise (a b c d x y : ℝ)
    (hd : 1e-12 < (c - a) ^ 2 + (d - b) ^ 2) :
    hypot ((a + ((x - a) * ((c - a) / hypot (c - a) (d - b)) +
        (y - b) * ((d - b) / hypot (c - a) (d - b))) * ((c - a) / hypot (c - a) (d - b))) - a)
      ((b + ((x - a) * ((c - a) / hypot (c - a) (d - b)) +
        (y - b) * ((d - b) / hypot (c - a) (d - b))) * ((d - b) / hypot (c - a) (d - b))) - b) /
      hypot (c - a) (d - b)
    = |(x - a) * (c - a) + (y - b) * (d - b)| / ((c - a) ^ 2 + (d - b) ^ 2) := by
  have hs : (0:ℝ) < (c - a) ^ 2 + (d - b) ^ 2 := by linarith
  have hD : 0 < hypot (c - a) (d - b) := by
    unfold hypot
    exact Real.sqrt_pos.mpr hs
  have hD2 : hypot (c - a) (d - b) ^ 2 = (c - a) ^ 2 + (d - b) ^ 2 := hypot_sq _ _
  set D := hypot (c - a) (d - b) with hDdef
  have hDne : D ≠ 0 := hD.ne'
  have h1 : (a + ((x - a) * ((c - a) / D) + (y - b) * ((d - b) / D)) * ((c - a) / D)) - a =
      (((x - a) * (c - a) + (y - b) * (d - b)) / D) * ((c - a) / D) := by ring
  have h2 : (b + ((x - a) * ((c - a) / D) + (y - b) * ((d - b) / D)) * ((d - b) / D)) - b =
      (((x - a) * (c - a) + (y - b) * (d - b)) / D) * ((d - b) / D) := by ring
  rw [h1, h2]
  set dot := (x - a) * (c - a) + (y - b) * (d - b) with hdot
  unfold hypot
  have harg : (dot / D * ((c - a) / D)) ^ 2 + (dot / D * ((d - b) / D)) ^ 2 =
      dot ^ 2 / ((c - a) ^ 2 + (d - b) ^ 2) := by
    calc (dot / D * ((c - a) / D)) ^ 2 + (dot / D * ((d - b) / D)) ^ 2
        = dot ^ 2 * ((c - a) ^ 2 + (d - b) ^ 2) / (D ^ 2) ^ 2 := by ring
      _ = dot ^ 2 * ((c - a) ^ 2 + (d - b) ^ 2) / ((c - a) ^ 2 + (d - b) ^ 2) ^ 2 := by
          rw [hD2]
      _ = dot ^ 2 / ((c - a) ^ 2 + (d - b) ^ 2) := by
          field_simp
          ring
  rw [harg, Real.sqrt_div (sq_nonneg dot), Real.sqrt_sq_eq_abs]
  have hsqrtD : Real.sqrt ((c - a) ^ 2 + (d - b) ^ 2) = D := by
    rw [hDdef]
    rfl
  rw [hsqrtD, div_div]
  congr 1
  rw [← hD2]
  ring

/-- Evaluation of `two_fractions_from_phasor` on a non-degenerate pair of
components `(a, b)` and `(c, d)`: the second-component fraction at sample
`(x, y)` is `|(x-a)(c-a) + (y-b)(d-b)|` over the squared distance between
the components, and the first-component fraction is its complement. -/
theorem two_fractions_eval (a b c d : ℝ) (real imag real_components imag_components : PyObj)
    (hd : 1e-12 < (c - a) ^ 2 + (d - b) ^ 2)
    (hrc : real_components.asarray = ⟨[2], [a, c]⟩)
    (hic : imag_components.asarray = ⟨[2], [b, d]⟩) :
    two_fractions_from_phasor real imag real_components imag_components =
      .ok (tupleOfArray ⟨2 :: real.asarray.shape,
        ((List.zipWith (fun x y => |(x - a) * (c - a) + (y - b) * (d - b)| /
            ((c - a) ^ 2 + (d - b) ^ 2)) real.asarray.data imag.asarray.data).map fun v => 1 - v) ++
        List.zipWith (fun x y => |(x - a) * (c - a) + (y - b) * (d - b)| /
            ((c - a) ^ 2 + (d - b) ^ 2)) real.asarray.data imag.asarray.data⟩) := by
  have hs : (0:ℝ) < (c - a) ^ 2 + (d - b) ^ 2 := by linarith
  have hnc : ¬ isclose (hypot (c - a) (d - b)) 0 1e-9 1e-6 := by
    rw [isclose_zero_iff (hypot_nonneg _ _), hypot_le_tol_iff]
    linarith
  have hpt := fun x y => two_fraction_pointwise a b c d x y hd
  simp only [two_fractions_from_phasor, project_phasor_to_line, asarray_ndarray]
  rw [hrc, hic]
  simp only [List.getD, List.get?, Option.getD_some]
  rw [if_neg (by simp), if_neg (by simp), if_neg (by simpa using hnc)]
  congr 2
  rw [zipWith_zipWith_same, map_zipWith_same]
  rw [zipWith_congr_fun hpt]

end Phasor

namespace Phasor

/-- C4: the documented concrete scenario.  On `real = [0.6, 0.5, 0.4]`,
`imag = [0.4, 0.3, 0.2]` with components `(0.2, 0.4)` and `(0.9, 0.3)`,
`two_fractions_from_phasor` returns exactly
`([0.44, 0.56, 0.68], [0.56, 0.44, 0.32])` (hence well within the 1e-2
tolerance). -/
theorem C4_concrete_two_fractions :
    two_fractions_from_phasor (.list [0.6, 0.5, 0.4]) (.list [0.4, 0.3, 0.2])
        (.list [0.2, 0.9]) (.list [0.4, 0.3]) =
      .ok [⟨[3], [0.44, 0.56, 0.68]⟩, ⟨[3], [0.56, 0.44, 0.32]⟩] := by
  rw [two_fractions_eval 0.2 0.4 0.9 0.3 (.list [0.6, 0.5, 0.4]) (.list [0.4, 0.3, 0.2])
    (.list [0.2, 0.9]) (.list [0.4, 0.3]) (by norm_num) rfl rfl]
  simp only [PyObj.asarray, List.length_cons, List.length_nil, List.zipWith_cons_cons,
    List.zipWith_nil_right, List.zipWith_nil_left, List.map_cons, List.map_nil]
  norm_num [tupleOfArray, List.range_succ, List.getD, abs_of_nonneg]

/-- C5: with component arrays of shape `(2,)`, `two_fractions_from_phasor`
raises the degenerate-components `ValueError` exactly when the two
reference coordinates are within Euclidean distance 1e-6 of each other. -/
theorem C5_degenerate_iff (real imag rc ic : PyObj)
    (hrc : rc.asarray.shape = [2]) (hic : ic.asarray.shape = [2]) :
    (two_fractions_from_phasor real imag rc ic =
        .error (.valueError "components must have different coordinates")) ↔
      hypot (rc.asarray.data.getD 1 0 - rc.asarray.data.getD 0 0)
          (ic.asarray.data.getD 1 0 - ic.asarray.data.getD 0 0) ≤ 1e-6 := by
  simp only [two_fractions_from_phasor]
  rw [if_neg (by simp [hrc]), if_neg (by simp [hic])]
  by_cases hcl : isclose
      (hypot (rc.asarray.data.getD 1 0 - rc.asarray.data.getD 0 0)
        (ic.asarray.data.getD 1 0 - ic.asarray.data.getD 0 0)) 0 1e-9 1e-6
  · rw [if_pos hcl]
    exact ⟨fun _ => (isclose_zero_iff (hypot_nonneg _ _)).mp hcl, fun _ => rfl⟩
  · rw [if_neg hcl]
    have hnot : ¬ (hypot (rc.asarray.data.getD 1 0 - rc.asarray.data.getD 0 0)
        (ic.asarray.data.getD 1 0 - ic.asarray.data.getD 0 0) ≤ 1e-6) :=
      fun h => hcl ((isclose_zero_iff (hypot_nonneg _ _)).mpr h)
    exact ⟨fun h => Except.noConfusion h, fun h => absurd h hnot⟩

theorem C5_degenerate_iff_witness :
    two_fractions_from_phasor (.list [0.6, 0.5, 0.4]) (.list [0.4, 0.3, 0.2])
        (.list [0.5, 0.5]) (.list [0.3, 0.3]) =
      .error (.valueError "components must have different coordinates") :=
  (C5_degenerate_iff _ _ _ _ (by simp [PyObj.asarray]) (by simp [PyObj.asarray])).mpr
    (by norm_num [PyObj.asarray, hypot, List.getD, Real.sqrt_zero])

end Phasor

namespace Phasor

/-! ## The linear-system path -/

lemma mat3_of_data (R0 R1 R2 S0 S1 S2 : ℝ) :
    (Matrix.of fun (i j : Fin 3) =>
      ([R0, R1, R2, S0, S1, S2, (1:ℝ), 1, 1][(i.val * 3 + j.val)]?).getD 0) =
    !![R0, R1, R2; S0, S1, S2; 1, 1, 1] := by
  ext i j
  fin_cases i <;> fin_cases j <;> simp

lemma range_some {m p : ℕ} (h : p < m) : (List.range m)[p]? = some p := by
  rw [List.getElem?_eq_getElem (by simpa using h)]
  simp

lemma fractions3_singular (R0 R1 R2 S0 S1 S2 : ℝ) (ra ia : NDArray)
    (hsh : ra.shape = ia.shape)
    (hdet : (!![R0, R1, R2; S0, S1, S2; (1:ℝ), 1, 1]).det = 0) :
    fractions_from_phasor (.ndarray ra) (.ndarray ia)
        (.ndarray ⟨[3], [R0, R1, R2]⟩) (.ndarray ⟨[3], [S0, S1, S2]⟩) =
      .error (.linAlgError "Singular matrix") := by
  simp [fractions_from_phasor, PyObj.shapeAttr, hsh, asarray_ndarray, atleast_1d,
    NDArray.size, NDArray.ndim, np_expand_dims0, np_concat0, np_ones, np_expand_last,
    np_transpose, np_tile_last, np_index_last0, np_linalg_solve, List.replicate,
    List.getD]
  rw [mat3_of_data, if_pos hdet]

end Phasor

namespace Phasor

lemma fractions3_ok (R0 R1 R2 S0 S1 S2 : ℝ) (n : ℕ) (xs ys : List ℝ)
    (hx : xs.length = n) (hy : ys.length = n)
    (hdet : (!![R0, R1, R2; S0, S1, S2; (1:ℝ), 1, 1]).det ≠ 0) :
    fractions_from_phasor (.ndarray ⟨[n], xs⟩) (.ndarray ⟨[n], ys⟩)
        (.ndarray ⟨[3], [R0, R1, R2]⟩) (.ndarray ⟨[3], [S0, S1, S2]⟩) =
      .ok ((List.range 3).map fun j => ⟨[n], (List.range n).map fun i =>
        solveEntry !![R0, R1, R2; S0, S1, S2; (1:ℝ), 1, 1]
          ![xs.getD i 0, ys.getD i 0, 1] j⟩) := by
  simp [fractions_from_phasor, PyObj.shapeAttr, asarray_ndarray, atleast_1d,
    NDArray.size, NDArray.ndim, np_expand_dims0, np_concat0, np_ones, np_expand_last,
    np_transpose, np_tile_last, np_index_last0, np_linalg_solve, List.replicate,
    List.getD]
  rw [mat3_of_data, if_neg hdet]
  simp [tupleOfArray, multiIndex_pair, flatIndex_pair, Nat.mod_one]
  intro a ha i2 hi2
  have hn : 0 < n := lt_of_le_of_lt (Nat.zero_le _) hi2
  have hb1 : a * n + i2 < n * 3 := by
    rw [mul_comm n 3]
    exact mul_add_lt ha hi2
  rw [range_some hb1, Option.map_some', Option.getD_some]
  rw [mod_helper a hi2, div_helper a hi2, Nat.mod_eq_of_lt ha]
  have hb2 : i2 * 3 + a < 3 * n := by
    rw [mul_comm 3 n]
    exact mul_add_lt hi2 ha
  rw [range_some hb2, Option.map_some', Option.getD_some]
  have hb3 : (i2 * 3 + a) * 3 < n * 9 := by omega
  rw [range_some hb3, Option.map_some', Option.getD_some]
  have e0 : (i2 * 3 + a) * 3 = 9 * i2 + 3 * a := by ring
  have e1 : (i2 * 3 + a) * 3 % 9 = 3 * a := by
    rw [e0, Nat.mul_add_mod, Nat.mod_eq_of_lt (by omega)]
  have e2 : (i2 * 3 + a) * 3 / 9 = i2 := by
    rw [e0, Nat.mul_add_div (by norm_num), Nat.div_eq_of_lt (by omega), add_zero]
  have e3 : (i2 * 3 + a) * 3 % 3 = 0 := by omega
  simp only [e1, e2, e3, add_zero]
  rw [show 3 * a / 3 = a by omega]
  refine congrArg (fun b => solveEntry _ b _) ?_
  funext t
  have ht : (t : ℕ) < 3 := t.isLt
  rw [range_some (by omega), Option.map_some', Option.getD_some]
  rw [show (i2 * 9 + (t : ℕ) * 3) / 3 = i2 * 3 + (t : ℕ) by omega]
  have hb5 : i2 * 3 + (t : ℕ) < 3 * n := by
    rw [mul_comm 3 n]
    exact mul_add_lt hi2 ht
  rw [range_some hb5, Option.map_some', Option.getD_some]
  rw [show (i2 * 3 + (t : ℕ)) % 3 = (t : ℕ) by omega,
    show (i2 * 3 + (t : ℕ)) / 3 = i2 by omega, Nat.mod_eq_of_lt hi2]
  fin_cases t
  · rw [show (0 : ℕ) * n + i2 = i2 by omega,
      List.getElem?_append_left (by rw [hx]; exact hi2)]
    simp
  · rw [show (1 : ℕ) * n + i2 = n + i2 by omega,
      List.getElem?_append_right (by rw [hx]; omega),
      List.getElem?_append_left (by rw [hy]; rw [hx]; omega)]
    simp [hx]
  · rw [show (2 : ℕ) * n + i2 = n + (n + i2) by omega,
      List.getElem?_append_right (by rw [hx]; omega),
      List.getElem?_append_right (by rw [hy]; rw [hx]; omega)]
    rw [hx, hy]
    rw [show n + (n + i2) - n - n = i2 by omega]
    rw [show (List.replicate n (1:ℝ))[i2]? = some 1 from by
      rw [List.getElem?_eq_getElem (by simpa using hi2)]
      simp]
    simp

end Phasor

namespace Phasor

/-! ## Exact-solve algebra -/

lemma mulVec_cramer_solution {k : ℕ} (A : Matrix (Fin k) (Fin k) ℝ) (b : Fin k → ℝ)
    (hdet : A.det ≠ 0) :
    A.mulVec (A.det⁻¹ • Matrix.cramer A b) = b := by
  rw [Matrix.mulVec_smul, Matrix.mulVec_cramer, smul_smul, inv_mul_cancel₀ hdet, one_smul]

lemma solve_eq_of_mulVec {k : ℕ} (A : Matrix (Fin k) (Fin k) ℝ) (b f : Fin k → ℝ)
    (hdet : A.det ≠ 0) (hf : A.mulVec f = b) :
    (A.det⁻¹ • Matrix.cramer A b) = f := by
  have hu : IsUnit A.det := isUnit_iff_ne_zero.mpr hdet
  have h1 : A.mulVec (A.det⁻¹ • Matrix.cramer A b) = A.mulVec f := by
    rw [mulVec_cramer_solution A b hdet, hf]
  have h2 := congrArg (fun v => A⁻¹.mulVec v) h1
  simpa [Matrix.mulVec_mulVec, Matrix.nonsing_inv_mul A hu] using h2

end Phasor

namespace Phasor

/-! ## The dual-harmonic four-component path -/

lemma mat4_of_data (R00 R01 R02 R03 R10 R11 R12 R13
    S00 S01 S02 S03 S10 S11 S12 S13 : ℝ) :
    (Matrix.of fun (i j : Fin 4) =>
      ([R00, R01, R02, R03, R10, R11, R12, R13,
        S00, S01, S02, S03, S10, S11, S12, S13][(i.val * 4 + j.val)]?).getD 0) =
    !![R00, R01, R02, R03; R10, R11, R12, R13;
       S00, S01, S02, S03; S10, S11, S12, S13] := by
  ext i j
  fin_cases i <;> fin_cases j <;> rfl

lemma fractions4_singular (R00 R01 R02 R03 R10 R11 R12 R13
    S00 S01 S02 S03 S10 S11 S12 S13 : ℝ) (srest : List ℕ) (rdata idata : List ℝ)
    (hdet : (!![R00, R01, R02, R03; R10, R11, R12, R13;
        S00, S01, S02, S03; S10, S11, S12, S13]).det = 0) :
    fractions_from_phasor (.ndarray ⟨2 :: srest, rdata⟩) (.ndarray ⟨2 :: srest, idata⟩)
        (.ndarray ⟨[2, 4], [R00, R01, R02, R03, R10, R11, R12, R13]⟩)
        (.ndarray ⟨[2, 4], [S00, S01, S02, S03, S10, S11, S12, S13]⟩) =
      .error (.linAlgError "Singular matrix") := by
  simp [fractions_from_phasor, PyObj.shapeAttr, asarray_ndarray, atleast_1d,
    NDArray.size, NDArray.ndim, np_expand_dims0, np_concat0, np_ones, np_expand_last,
    np_transpose, np_tile_last, np_index_last0, np_linalg_solve, List.replicate,
    List.getD]
  rw [mat4_of_data, if_pos hdet]

end Phasor

namespace Phasor

lemma fractions4_ok (R00 R01 R02 R03 R10 R11 R12 R13
    S00 S01 S02 S03 S10 S11 S12 S13 x1 x2 y1 y2 : ℝ)
    (hdet : (!![R00, R01, R02, R03; R10, R11, R12, R13;
        S00, S01, S02, S03; S10, S11, S12, S13]).det ≠ 0) :
    fractions_from_phasor (.ndarray ⟨[2], [x1, x2]⟩) (.ndarray ⟨[2], [y1, y2]⟩)
        (.ndarray ⟨[2, 4], [R00, R01, R02, R03, R10, R11, R12, R13]⟩)
        (.ndarray ⟨[2, 4], [S00, S01, S02, S03, S10, S11, S12, S13]⟩) =
      .ok ((List.range 4).map fun j => ⟨[], [solveEntry
          !![R00, R01, R02, R03; R10, R11, R12, R13;
             S00, S01, S02, S03; S10, S11, S12, S13] ![x1, x2, y1, y2] j]⟩) := by
  simp [fractions_from_phasor, PyObj.shapeAttr, asarray_ndarray, atleast_1d,
    NDArray.size, NDArray.ndim, np_expand_dims0, np_concat0, np_ones, np_expand_last,
    np_transpose, np_tile_last, np_index_last0, np_linalg_solve, List.replicate,
    List.getD]
  rw [mat4_of_data, if_neg hdet]
  simp [tupleOfArray, multiIndex_single, flatIndex_single, Nat.mod_one, List.range_succ]
  refine ⟨?_, ?_, ?_, ?_⟩ <;>
  · rw [show List.range 1 = [0] by rfl]
    simp
    exact congrArg (fun b => solveEntry _ b _) (by funext t; fin_cases t <;> rfl)

end Phasor

namespace Phasor

/-- C7: affinely dependent components make the exact solve raise a
singular-matrix error that propagates to the caller: for K = 3, three
collinear reference components (vanishing cross product) always produce
`LinAlgError: Singular matrix`; for K = 4 at two harmonics, any component
configuration whose 4-by-4 coefficient matrix is singular does the same. -/
theorem C7_singular_raises :
    (∀ (R0 R1 R2 S0 S1 S2 : ℝ) (ra ia : NDArray), ra.shape = ia.shape →
      (R1 - R0) * (S2 - S0) - (R2 - R0) * (S1 - S0) = 0 →
      fractions_from_phasor (.ndarray ra) (.ndarray ia)
          (.ndarray ⟨[3], [R0, R1, R2]⟩) (.ndarray ⟨[3], [S0, S1, S2]⟩) =
        .error (.linAlgError "Singular matrix")) ∧
    (∀ (R00 R01 R02 R03 R10 R11 R12 R13
        S00 S01 S02 S03 S10 S11 S12 S13 : ℝ) (srest : List ℕ) (rdata idata : List ℝ),
      (!![R00, R01, R02, R03; R10, R11, R12, R13;
          S00, S01, S02, S03; S10, S11, S12, S13]).det = 0 →
      fractions_from_phasor (.ndarray ⟨2 :: srest, rdata⟩) (.ndarray ⟨2 :: srest, idata⟩)
          (.ndarray ⟨[2, 4], [R00, R01, R02, R03, R10, R11, R12, R13]⟩)
          (.ndarray ⟨[2, 4], [S00, S01, S02, S03, S10, S11, S12, S13]⟩) =
        .error (.linAlgError "Singular matrix")) := by
  constructor
  · intro R0 R1 R2 S0 S1 S2 ra ia hsh hcol
    apply fractions3_singular _ _ _ _ _ _ _ _ hsh
    rw [Matrix.det_fin_three]
    simp [Matrix.cons_val_zero, Matrix.cons_val_one, Matrix.head_cons]
    linear_combination hcol
  · intro R00 R01 R02 R03 R10 R11 R12 R13 S00 S01 S02 S03 S10 S11 S12 S13
      srest rdata idata hdet
    exact fractions4_singular _ _ _ _ _ _ _ _ _ _ _ _ _ _ _ _ _ _ _ hdet

theorem C7_singular_raises_witness :
    fractions_from_phasor (.ndarray ⟨[1], [0.5]⟩) (.ndarray ⟨[1], [0.3]⟩)
        (.ndarray ⟨[3], [0, 1, 2]⟩) (.ndarray ⟨[3], [0, 1, 2]⟩) =
      .error (.linAlgError "Singular matrix") ∧
    fractions_from_phasor (.ndarray ⟨[2], [0.5, 0.2]⟩) (.ndarray ⟨[2], [0.3, 0.1]⟩)
        (.ndarray ⟨[2, 4], [0, 0, 0, 0, 0, 0, 0, 0]⟩)
        (.ndarray ⟨[2, 4], [0, 0, 0, 0, 0, 0, 0, 0]⟩) =
      .error (.linAlgError "Singular matrix") :=
  ⟨C7_singular_raises.1 0 1 2 0 1 2 _ _ rfl (by norm_num),
   C7_singular_raises.2 0 0 0 0 0 0 0 0 0 0 0 0 0 0 0 0 [] _ _
     (Matrix.det_eq_zero_of_row_eq_zero 0 (by intro j; fin_cases j <;> rfl))⟩

end Phasor

namespace Phasor

lemma getD_map_at {L : List ℝ} {f : ℝ → ℝ} {i : ℕ} (h : i < L.length) :
    (L.map f).getD i 0 = f (L.getD i 0) := by
  rw [List.getD_eq_getElem _ _ (by simpa using h), List.getD_eq_getElem _ _ h]
  simp

lemma tupleOf_two_sum (S : List ℕ) (L : List ℝ) (hL : L.length = S.prod) :
    ∀ i < ((tupleOfArray ⟨2 :: S, L.map (fun v => 1 - v) ++ L⟩).getD 1 ⟨[], []⟩).data.length,
      ((tupleOfArray ⟨2 :: S, L.map (fun v => 1 - v) ++ L⟩).getD 0 ⟨[], []⟩).data.getD i 0 +
      ((tupleOfArray ⟨2 :: S, L.map (fun v => 1 - v) ++ L⟩).getD 1 ⟨[], []⟩).data.getD i 0 = 1 := by
  intro i hi
  have hrange : List.range 2 = [0, 1] := rfl
  simp only [tupleOfArray, hrange, List.map_cons, List.map_nil, List.getD_cons_zero,
    List.getD_cons_succ, List.length_map, List.length_range] at hi ⊢
  rw [getD_range_map _ hi, getD_range_map _ hi]
  rw [getD_append_left (by simpa [hL] using hi),
    getD_append_right' (by simp [hL])]
  rw [show (1 * S.prod + i) - (L.map fun v => 1 - v).length = i by simp [hL]]
  rw [show (0 : ℕ) * S.prod + i = i by omega]
  rw [getD_map_at (by rw [hL]; exact hi)]
  ring

end Phasor

namespace Phasor

/-- C2: the returned fractions sum to one elementwise.  First conjunct: any
successful `two_fractions_from_phasor` call on well-formed measured arrays
returns two arrays whose entries pairwise add to 1, whatever the sample
shape.  Second conjunct: for K ∈ {3,4} one-dimensional component arrays
(the ones-row augmentation path), any successful `fractions_from_phasor`
call returns K arrays whose entries sum to 1 at every sample. -/
theorem C2_fractions_sum_to_one :
    (∀ (real imag rc ic : PyObj) (res : List NDArray),
      real.asarray.data.length = real.asarray.shape.prod →
      imag.asarray.data.length = real.asarray.data.length →
      two_fractions_from_phasor real imag rc ic = .ok res →
      ∀ i < (res.getD 1 ⟨[], []⟩).data.length,
        (res.getD 0 ⟨[], []⟩).data.getD i 0 + (res.getD 1 ⟨[], []⟩).data.getD i 0 = 1) ∧
    (∀ (K : ℕ), (K = 3 ∨ K = 4) → ∀ (cr ci : List ℝ), cr.length = K → ci.length = K →
      ∀ (n : ℕ) (xs ys : List ℝ), xs.length = n → ys.length = n →
      ∀ (res : List NDArray),
      fractions_from_phasor (.ndarray ⟨[n], xs⟩) (.ndarray ⟨[n], ys⟩)
          (.ndarray ⟨[K], cr⟩) (.ndarray ⟨[K], ci⟩) = .ok res →
      ∀ i < n, ((res.map fun a => a.data.getD i 0).sum) = 1) := by
  constructor
  · intro real imag rc ic res hwr hwi h
    simp only [two_fractions_from_phasor] at h
    split_ifs at h
    injection h with h2
    subst h2
    apply tupleOf_two_sum
    simp only [project_phasor_to_line, List.length_map, List.length_zipWith, hwi, hwr]
    simp
  · rintro K (rfl | rfl) cr ci hcr hci n xs ys hxs hys res h i hi
    · obtain ⟨R0, R1, R2, rfl⟩ := List.length_eq_three.mp hcr
      obtain ⟨S0, S1, S2, rfl⟩ := List.length_eq_three.mp hci
      by_cases hdet : (!![R0, R1, R2; S0, S1, S2; (1:ℝ), 1, 1]).det = 0
      · rw [fractions3_singular R0 R1 R2 S0 S1 S2 ⟨[n], xs⟩ ⟨[n], ys⟩ rfl hdet] at h
        exact absurd h (by simp)
      · rw [fractions3_ok R0 R1 R2 S0 S1 S2 n xs ys hxs hys hdet] at h
        injection h with h2
        subst h2
        have hsol := congrFun (mulVec_cramer_solution
          !![R0, R1, R2; S0, S1, S2; (1:ℝ), 1, 1]
          ![xs.getD i 0, ys.getD i 0, 1] hdet) 2
        simp only [Matrix.mulVec, Matrix.dotProduct, Fin.sum_univ_three] at hsol
        have hrange : List.range 3 = [0, 1, 2] := rfl
        simp only [hrange, List.map_cons, List.map_nil]
        rw [getD_range_map _ hi, getD_range_map _ hi, getD_range_map _ hi]
        simp only [solveEntry, List.sum_cons, List.sum_nil]
        rw [dif_pos (by norm_num), dif_pos (by norm_num), dif_pos (by norm_num)]
        simp only [Matrix.cons_val_zero, Matrix.cons_val_one, Matrix.head_cons,
          Matrix.cons_val_two, Matrix.tail_cons, Matrix.head_fin_const] at hsol
        simp at hsol ⊢
        linarith [hsol]
    · rw [fractions4_1d_not_square ⟨[n], xs⟩ ⟨[n], ys⟩ cr ci rfl] at h
      exact absurd h (by simp)

end Phasor

namespace Phasor

theorem C2_fractions_sum_to_one_witness :
    (([(⟨[1], [0.5]⟩ : NDArray), ⟨[1], [0.5]⟩].getD 0 ⟨[], []⟩).data.getD 0 0 +
      ([(⟨[1], [0.5]⟩ : NDArray), ⟨[1], [0.5]⟩].getD 1 ⟨[], []⟩).data.getD 0 0 = 1) ∧
    (([(⟨[1], [0.2]⟩ : NDArray), ⟨[1], [0.3]⟩, ⟨[1], [0.5]⟩].map
        fun a => a.data.getD 0 0).sum = 1) := by
  constructor
  · refine C2_fractions_sum_to_one.1 (.list [0.5]) (.list [0.1]) (.list [0, 1]) (.list [0, 0])
      [⟨[1], [0.5]⟩, ⟨[1], [0.5]⟩] (by simp [PyObj.asarray]) (by simp [PyObj.asarray]) ?_ 0
      (by simp)
    rw [two_fractions_eval 0 0 1 0 (.list [0.5]) (.list [0.1])
      (.list [0, 1]) (.list [0, 0]) (by norm_num) rfl rfl]
    simp only [PyObj.asarray, List.length_cons, List.length_nil, List.zipWith_cons_cons,
      List.zipWith_nil_right, List.zipWith_nil_left, List.map_cons, List.map_nil]
    norm_num [tupleOfArray, List.range_succ, List.getD, abs_of_nonneg]
  · refine C2_fractions_sum_to_one.2 3 (Or.inl rfl) [0, 1, 0] [0, 0, 1] rfl rfl
      1 [0.3] [0.5] rfl rfl [⟨[1], [0.2]⟩, ⟨[1], [0.3]⟩, ⟨[1], [0.5]⟩] ?_ 0 (by norm_num)
    rw [fractions3_ok 0 1 0 0 0 1 1 [0.3] [0.5] rfl rfl
      (by rw [Matrix.det_fin_three]; norm_num)]
    have hsol := solve_eq_of_mulVec (!![0, 1, 0; 0, 0, 1; (1:ℝ), 1, 1])
      ![0.3, 0.5, 1] ![0.2, 0.3, 0.5]
      (by rw [Matrix.det_fin_three]; norm_num)
      (by
        funext i2
        fin_cases i2 <;>
          norm_num [Matrix.mulVec, Matrix.dotProduct, Fin.sum_univ_three])
    have hrange : List.range 3 = [0, 1, 2] := rfl
    have hrange1 : List.range 1 = [0] := rfl
    simp only [hrange, hrange1, List.map_cons, List.map_nil, solveEntry, List.getD,
      List.get?, Option.getD_some]
    rw [dif_pos (by norm_num), dif_pos (by norm_num), dif_pos (by norm_num)]
    have h0 := congrFun hsol 0
    have h1 := congrFun hsol 1
    have h2 := congrFun hsol 2
    simp only [Pi.smul_apply, smul_eq_mul, Matrix.cons_val_zero, Matrix.cons_val_one,
      Matrix.head_cons] at h0 h1 h2
    norm_num at h0 h1 h2 ⊢
    exact ⟨h0, h1, h2⟩

end Phasor

namespace Phasor

/-- C1 (amended): the round-trip property.  If the measured coordinate is
the exact linear combination of the components with fractions summing
to 1, `fractions_from_phasor` recovers the fractions exactly — for K = 2
provided the fraction of the second component is nonnegative (the
line-projection solver returns an absolute distance, so a negative second
fraction comes back as its absolute value), and for K = 3 and the
dual-harmonic K = 4 provided the coefficient matrix is nonsingular. -/
theorem C1_roundtrip_amended :
    (∀ (a b c d f1 f2 : ℝ), f1 + f2 = 1 → 0 ≤ f2 →
      1e-12 < (c - a) ^ 2 + (d - b) ^ 2 →
      fractions_from_phasor (.ndarray ⟨[1], [f1 * a + f2 * c]⟩)
          (.ndarray ⟨[1], [f1 * b + f2 * d]⟩)
          (.ndarray ⟨[2], [a, c]⟩) (.ndarray ⟨[2], [b, d]⟩) =
        .ok [⟨[1], [f1]⟩, ⟨[1], [f2]⟩]) ∧
    (∀ (R0 R1 R2 S0 S1 S2 f0 f1 f2 : ℝ), f0 + f1 + f2 = 1 →
      (!![R0, R1, R2; S0, S1, S2; (1:ℝ), 1, 1]).det ≠ 0 →
      fractions_from_phasor (.ndarray ⟨[1], [f0 * R0 + f1 * R1 + f2 * R2]⟩)
          (.ndarray ⟨[1], [f0 * S0 + f1 * S1 + f2 * S2]⟩)
          (.ndarray ⟨[3], [R0, R1, R2]⟩) (.ndarray ⟨[3], [S0, S1, S2]⟩) =
        .ok [⟨[1], [f0]⟩, ⟨[1], [f1]⟩, ⟨[1], [f2]⟩]) ∧
    (∀ (R00 R01 R02 R03 R10 R11 R12 R13
        S00 S01 S02 S03 S10 S11 S12 S13 f0 f1 f2 f3 : ℝ),
      f0 + f1 + f2 + f3 = 1 →
      (!![R00, R01, R02, R03; R10, R11, R12, R13;
          S00, S01, S02, S03; S10, S11, S12, S13]).det ≠ 0 →
      fractions_from_phasor
          (.ndarray ⟨[2], [f0 * R00 + f1 * R01 + f2 * R02 + f3 * R03,
                           f0 * R10 + f1 * R11 + f2 * R12 + f3 * R13]⟩)
          (.ndarray ⟨[2], [f0 * S00 + f1 * S01 + f2 * S02 + f3 * S03,
                           f0 * S10 + f1 * S11 + f2 * S12 + f3 * S13]⟩)
          (.ndarray ⟨[2, 4], [R00, R01, R02, R03, R10, R11, R12, R13]⟩)
          (.ndarray ⟨[2, 4], [S00, S01, S02, S03, S10, S11, S12, S13]⟩) =
        .ok [⟨[], [f0]⟩, ⟨[], [f1]⟩, ⟨[], [f2]⟩, ⟨[], [f3]⟩]) := by
  refine ⟨?_, ?_, ?_⟩
  · intro a b c d f1 f2 hsum hf2 hd
    have h2 := two_fractions_eval a b c d (.ndarray ⟨[1], [f1 * a + f2 * c]⟩)
      (.ndarray ⟨[1], [f1 * b + f2 * d]⟩) (.ndarray ⟨[2], [a, c]⟩)
      (.ndarray ⟨[2], [b, d]⟩) hd rfl rfl
    have hv : |(f1 * a + f2 * c - a) * (c - a) + (f1 * b + f2 * d - b) * (d - b)| /
        ((c - a) ^ 2 + (d - b) ^ 2) = f2 := by
      have hdot : (f1 * a + f2 * c - a) * (c - a) + (f1 * b + f2 * d - b) * (d - b) =
          f2 * ((c - a) ^ 2 + (d - b) ^ 2) := by
        have hf1 : f1 = 1 - f2 := by linarith
        rw [hf1]
        ring
      rw [hdot, abs_of_nonneg (mul_nonneg hf2 (by positivity))]
      field_simp
    simp only [fractions_from_phasor, PyObj.shapeAttr, atleast_1d, asarray_ndarray,
      NDArray.size, List.prod_cons, List.prod_nil]
    norm_num
    rw [h2]
    have hrange2 : List.range 2 = [0, 1] := rfl
    have hrange1 : List.range 1 = [0] := rfl
    simp [tupleOfArray, hv, hrange2, hrange1, List.getD, PyObj.asarray]
    linarith
  · intro R0 R1 R2 S0 S1 S2 f0 f1 f2 hsum hdet
    rw [fractions3_ok R0 R1 R2 S0 S1 S2 1 [f0 * R0 + f1 * R1 + f2 * R2]
      [f0 * S0 + f1 * S1 + f2 * S2] rfl rfl hdet]
    have hsol := solve_eq_of_mulVec (!![R0, R1, R2; S0, S1, S2; (1:ℝ), 1, 1])
      ![f0 * R0 + f1 * R1 + f2 * R2, f0 * S0 + f1 * S1 + f2 * S2, 1] ![f0, f1, f2] hdet
      (by
        funext i2
        fin_cases i2
        · simp [Matrix.mulVec, Matrix.dotProduct, Fin.sum_univ_three]
          ring
        · simp [Matrix.mulVec, Matrix.dotProduct, Fin.sum_univ_three]
          ring
        · simp [Matrix.mulVec, Matrix.dotProduct, Fin.sum_univ_three]
          linarith)
    have hrange : List.range 3 = [0, 1, 2] := rfl
    have hrange1 : List.range 1 = [0] := rfl
    simp only [hrange, hrange1, List.map_cons, List.map_nil, solveEntry, List.getD,
      List.get?, Option.getD_some]
    rw [dif_pos (by norm_num), dif_pos (by norm_num), dif_pos (by norm_num)]
    have h0 := congrFun hsol 0
    have h1 := congrFun hsol 1
    have h2 := congrFun hsol 2
    simp only [Pi.smul_apply, smul_eq_mul, Matrix.cons_val_zero, Matrix.cons_val_one,
      Matrix.head_cons] at h0 h1 h2
    norm_num at h0 h1 h2 ⊢
    exact ⟨h0, h1, h2⟩
  · intro R00 R01 R02 R03 R10 R11 R12 R13 S00 S01 S02 S03 S10 S11 S12 S13
      f0 f1 f2 f3 hsum hdet
    rw [fractions4_ok _ _ _ _ _ _ _ _ _ _ _ _ _ _ _ _ _ _ _ _ hdet]
    have hsol := solve_eq_of_mulVec
      (!![R00, R01, R02, R03; R10, R11, R12, R13;
          S00, S01, S02, S03; S10, S11, S12, S13])
      ![f0 * R00 + f1 * R01 + f2 * R02 + f3 * R03,
        f0 * R10 + f1 * R11 + f2 * R12 + f3 * R13,
        f0 * S00 + f1 * S01 + f2 * S02 + f3 * S03,
        f0 * S10 + f1 * S11 + f2 * S12 + f3 * S13] ![f0, f1, f2, f3] hdet
      (by
        funext i2
        fin_cases i2 <;>
          · simp [Matrix.mulVec, Matrix.dotProduct, Fin.sum_univ_four]
            ring)
    have hrange : List.range 4 = [0, 1, 2, 3] := rfl
    simp only [hrange, List.map_cons, List.map_nil, solveEntry]
    rw [dif_pos (by norm_num), dif_pos (by norm_num), dif_pos (by norm_num),
      dif_pos (by norm_num)]
    have h0 := congrFun hsol 0
    have h1 := congrFun hsol 1
    have h2 := congrFun hsol 2
    have h3 := congrFun hsol 3
    simp only [Pi.smul_apply, smul_eq_mul, Matrix.cons_val_zero, Matrix.cons_val_one,
      Matrix.head_cons] at h0 h1 h2 h3
    norm_num at h0 h1 h2 h3 ⊢
    exact ⟨h0, h1, h2, h3⟩

end Phasor

namespace Phasor

/-- C1 (counterexample): the round-trip claim as stated fails.  The
fraction vector (1.5, -0.5) sums to 1 and the measured coordinate is the
exact combination of the distinct components (0,0) and (1,0), yet the
solver returns (0.5, 0.5) — the projected distance is unsigned — and not
(1.5, -0.5). -/
theorem C1_roundtrip_counterexample :
    ((1.5 : ℝ) + (-0.5) = 1) ∧
    ((-0.5 : ℝ) = 1.5 * 0 + (-0.5) * 1) ∧
    ((0 : ℝ) = 1.5 * 0 + (-0.5) * 0) ∧
    fractions_from_phasor (.ndarray ⟨[1], [-0.5]⟩) (.ndarray ⟨[1], [0]⟩)
        (.ndarray ⟨[2], [0, 1]⟩) (.ndarray ⟨[2], [0, 0]⟩) =
      .ok [⟨[1], [0.5]⟩, ⟨[1], [0.5]⟩] ∧
    fractions_from_phasor (.ndarray ⟨[1], [-0.5]⟩) (.ndarray ⟨[1], [0]⟩)
        (.ndarray ⟨[2], [0, 1]⟩) (.ndarray ⟨[2], [0, 0]⟩) ≠
      .ok [⟨[1], [1.5]⟩, ⟨[1], [-0.5]⟩] := by
  have hval : fractions_from_phasor (.ndarray ⟨[1], [-0.5]⟩) (.ndarray ⟨[1], [0]⟩)
      (.ndarray ⟨[2], [0, 1]⟩) (.ndarray ⟨[2], [0, 0]⟩) =
      .ok [⟨[1], [0.5]⟩, ⟨[1], [0.5]⟩] := by
    have h2 := two_fractions_eval 0 0 1 0 (.ndarray ⟨[1], [-0.5]⟩)
      (.ndarray ⟨[1], [0]⟩) (.ndarray ⟨[2], [0, 1]⟩)
      (.ndarray ⟨[2], [0, 0]⟩) (by norm_num) rfl rfl
    simp only [fractions_from_phasor, PyObj.shapeAttr, atleast_1d, asarray_ndarray,
      NDArray.size, List.prod_cons, List.prod_nil, mul_one, ne_eq, reduceCtorEq,
      not_false_eq_true, if_false, ite_self]
    norm_num only at h2 ⊢
    rw [h2]
    have hrange2 : List.range 2 = [0, 1] := rfl
    have hrange1 : List.range 1 = [0] := rfl
    norm_num [tupleOfArray, hrange2, hrange1, List.getD, PyObj.asarray, abs_of_nonpos]
  refine ⟨by norm_num, by norm_num, by norm_num, hval, ?_⟩
  rw [hval]
  intro hcontra
  simp only [Except.ok.injEq, List.cons.injEq, NDArray.mk.injEq] at hcontra
  norm_num at hcontra

theorem C1_roundtrip_amended_witness :
    (fractions_from_phasor (.ndarray ⟨[1], [(0.5:ℝ) * 0 + 0.5 * 1]⟩)
        (.ndarray ⟨[1], [(0.5:ℝ) * 0 + 0.5 * 1]⟩)
        (.ndarray ⟨[2], [0, 1]⟩) (.ndarray ⟨[2], [0, 1]⟩) =
      .ok [⟨[1], [0.5]⟩, ⟨[1], [0.5]⟩]) ∧
    (fractions_from_phasor (.ndarray ⟨[1], [(0.2:ℝ) * 0 + 0.3 * 1 + 0.5 * 0]⟩)
        (.ndarray ⟨[1], [(0.2:ℝ) * 0 + 0.3 * 0 + 0.5 * 1]⟩)
        (.ndarray ⟨[3], [0, 1, 0]⟩) (.ndarray ⟨[3], [0, 0, 1]⟩) =
      .ok [⟨[1], [0.2]⟩, ⟨[1], [0.3]⟩, ⟨[1], [0.5]⟩]) ∧
    (fractions_from_phasor
        (.ndarray ⟨[2], [(0.1:ℝ) * 1 + 0.2 * 0 + 0.3 * 0 + 0.4 * 0,
                         (0.1:ℝ) * 0 + 0.2 * 1 + 0.3 * 0 + 0.4 * 0]⟩)
        (.ndarray ⟨[2], [(0.1:ℝ) * 0 + 0.2 * 0 + 0.3 * 1 + 0.4 * 0,
                         (0.1:ℝ) * 0 + 0.2 * 0 + 0.3 * 0 + 0.4 * 1]⟩)
        (.ndarray ⟨[2, 4], [1, 0, 0, 0, 0, 1, 0, 0]⟩)
        (.ndarray ⟨[2, 4], [0, 0, 1, 0, 0, 0, 0, 1]⟩) =
      .ok [⟨[], [0.1]⟩, ⟨[], [0.2]⟩, ⟨[], [0.3]⟩, ⟨[], [0.4]⟩]) :=
  ⟨C1_roundtrip_amended.1 0 0 1 1 0.5 0.5 (by norm_num) (by norm_num) (by norm_num),
   C1_roundtrip_amended.2.1 0 1 0 0 0 1 0.2 0.3 0.5 (by norm_num)
     (by rw [Matrix.det_fin_three]; norm_num),
   C1_roundtrip_amended.2.2 1 0 0 0 0 1 0 0 0 0 1 0 0 0 0 1 0.1 0.2 0.3 0.4
     (by norm_num)
     (by
       have hone : (!![1, 0, 0, 0; 0, 1, 0, 0; 0, 0, 1, 0; 0, 0, 0, 1] :
           Matrix (Fin 4) (Fin 4) ℝ) = 1 := by
         ext i j
         fin_cases i <;> fin_cases j <;>
           simp [Matrix.one_apply, Matrix.vecHead, Matrix.vecTail]
       rw [hone, Matrix.det_one]
       norm_num)⟩

end Phasor
